import Mathlib

/-!
Shallow embedding of the Ideation-Engine frontend (src/utils/llm.py and
src/app.py) with proofs about its retry, deduplication, review, cascade,
enrichment and citation logic.

Conventions used throughout:
* Python exceptions propagating out of a function are modelled by
  `Except.error`; a normal return is `Except.ok` (or a plain value when the
  function cannot raise on the modelled paths).
* Python dicts with string values are association lists `List (String × V)`
  with first-match lookup; Python dict keys are unique, which the lemmas
  assume where it matters (stated as `Nodup` hypotheses).
* Machine-external behaviour (the HTTP transport, the models behind the
  agents) enters as explicit oracle parameters: a transport outcome, a reply
  sequence, reviewer outputs, and so on.
-/

namespace IdeationEngine

/-- Python `str.strip()`: drop leading and trailing whitespace.
`Char.isWhitespace` covers space, tab, CR and LF; Python additionally
strips a few rarer Unicode space characters. -/
def pyStrip (s : String) : String :=
  ⟨((s.toList.dropWhile Char.isWhitespace).reverse.dropWhile
      Char.isWhitespace).reverse⟩

/-- Outcome of the single blocking HTTP exchange performed by `call_llm`
(src/utils/llm.py, `requests.post`): either a response was received
(status code, the parsed `choices[0].message.content` for the 200 case, and
the raw body text), or the transport layer itself raised an exception
(connection failure, timeout, ...), modelled by `exn`. -/
inductive TransportOutcome where
  | response (status : Nat) (content : String) (text : String)
  | exn (e : String)
deriving DecidableEq, Repr

/-- `call_llm` (src/utils/llm.py lines 52-73). `key` is the resolved
`api_key or AZURE_OPENAI_KEY`; Python truthiness makes both `None` and the
empty string count as missing. On a received response the function returns a
string: the stripped message content for status 200, otherwise the literal
`f"Error {status}: {text}"` string. The source wraps `requests.post` in no
try/except, so a transport-level exception propagates out (`Except.error`).
Python `str.strip` is modelled by `pyStrip`. -/
def call_llm (key : Option String) (outcome : TransportOutcome) :
    Except String String :=
  if key.getD "" = "" then
    Except.ok "Error: Azure key missing"
  else
    match outcome with
    | .response status content text =>
        if status = 200 then Except.ok (pyStrip content)
        else Except.ok ("Error " ++ toString status ++ ": " ++ text)
    | .exn e => Except.error e

/-- One model reply as seen by the retry loop of `call_llm_with_schema`
(src/utils/llm.py lines 164-215): either `extract_json` or
`jsonschema.validate` fails on the raw text (`invalid`), or a schema-valid
object `obj` was produced (`valid`). -/
inductive Reply (α : Type) where
  | invalid (raw : String)
  | valid (obj : α)

def Reply.isInvalid {α : Type} : Reply α → Bool
  | .invalid _ => true
  | .valid _ => false

/-- The `while attempt <= max_attempts` loop of `call_llm_with_schema`.
`reply i` is the (external) outcome of the model invocation on attempt `i`;
the mutation of `user_prompt` between attempts only changes the prompt text,
never the control flow, so the reply sequence absorbs it. `attempt` is the
current 1-based attempt number and `rem = max_attempts - attempt + 1` the
number of attempts still allowed. Returns the validated object (`none`
models the final `RuntimeError`) paired with the number of model
invocations performed. -/
def schemaLoop {α : Type} (reply : Nat → Reply α) (attempt : Nat) :
    Nat → Option α × Nat
  | 0 => (none, 0)
  | rem + 1 =>
    match reply attempt with
    | .valid obj => (some obj, 1)
    | .invalid _ =>
      let r := schemaLoop reply (attempt + 1) rem
      (r.1, r.2 + 1)

/-- `call_llm_with_schema` (src/utils/llm.py lines 164-215), starting at
attempt 1 with `max_attempts` attempts allowed. -/
def call_llm_with_schema {α : Type} (reply : Nat → Reply α)
    (max_attempts : Nat) : Option α × Nat :=
  schemaLoop reply 1 max_attempts

theorem schemaLoop_exhaust {α : Type} (reply : Nat → Reply α) :
    ∀ (rem attempt : Nat),
      (∀ i, attempt ≤ i → i < attempt + rem → (reply i).isInvalid = true) →
      schemaLoop reply attempt rem = (none, rem) := by
  intro rem
  induction rem with
  | zero => intro attempt _; rfl
  | succ n ih =>
    intro attempt h
    have h0 : (reply attempt).isInvalid = true :=
      h attempt (Nat.le_refl _) (by omega)
    cases hr : reply attempt with
    | valid o => rw [hr] at h0; simp [Reply.isInvalid] at h0
    | invalid raw =>
      have hrec : schemaLoop reply (attempt + 1) n = (none, n) :=
        ih (attempt + 1) (fun i h1 h2 => h i (by omega) (by omega))
      simp [schemaLoop, hr, hrec]

theorem schemaLoop_converge {α : Type} (reply : Nat → Reply α) :
    ∀ (j rem attempt : Nat) (obj : α), j < rem →
      (∀ i, attempt ≤ i → i < attempt + j → (reply i).isInvalid = true) →
      reply (attempt + j) = Reply.valid obj →
      schemaLoop reply attempt rem = (some obj, j + 1) := by
  intro j
  induction j with
  | zero =>
    intro rem attempt obj hlt _ hv
    cases rem with
    | zero => omega
    | succ n => simp only [schemaLoop]; rw [show attempt + 0 = attempt from rfl] at hv; rw [hv]
  | succ k ih =>
    intro rem attempt obj hlt h hv
    cases rem with
    | zero => omega
    | succ n =>
      have h0 : (reply attempt).isInvalid = true :=
        h attempt (Nat.le_refl _) (by omega)
      cases hr : reply attempt with
      | valid o => rw [hr] at h0; simp [Reply.isInvalid] at h0
      | invalid raw =>
        have hrec : schemaLoop reply (attempt + 1) n = (some obj, k + 1) := by
          refine ih n (attempt + 1) obj (by omega)
            (fun i h1 h2 => h i (by omega) (by omega)) ?_
          rw [show attempt + 1 + k = attempt + (k + 1) from by omega]; exact hv
        simp [schemaLoop, hr, hrec]

/-- C1: with `max_attempts` consecutive invalid replies,
`call_llm_with_schema` fails (raises, modelled as `none`) after exactly
`max_attempts` model invocations — never `max_attempts + 1`; and with `N`
invalid replies (`N < max_attempts`) followed by a valid one, it returns the
valid object after exactly `N + 1` invocations. -/
theorem C1_schema_retry_invocations {α : Type} (reply : Nat → Reply α)
    (max_attempts : Nat) :
    ((∀ i, 1 ≤ i → i ≤ max_attempts → (reply i).isInvalid = true) →
       call_llm_with_schema reply max_attempts = (none, max_attempts)) ∧
    (∀ N obj, N < max_attempts →
       (∀ i, 1 ≤ i → i ≤ N → (reply i).isInvalid = true) →
       reply (N + 1) = Reply.valid obj →
       call_llm_with_schema reply max_attempts = (some obj, N + 1)) := by
  constructor
  · intro h
    exact schemaLoop_exhaust reply max_attempts 1
      (fun i h1 h2 => h i h1 (by omega))
  · intro N obj hlt h hv
    have := schemaLoop_converge reply N max_attempts 1 obj hlt
      (fun i h1 h2 => h i h1 (by omega))
      (by rw [show 1 + N = N + 1 from by omega]; exact hv)
    exact this

/-- Witness for C1 at a concrete reply sequence: two invalid replies, then a
valid one, with `max_attempts = 3`. -/
theorem C1_schema_retry_invocations_witness :
    call_llm_with_schema
      (fun i => if i ≤ 2 then (Reply.invalid "prose" : Reply Nat)
                else Reply.valid 7) 3 = (some 7, 3) := by
  have h := (C1_schema_retry_invocations
      (fun i => if i ≤ 2 then (Reply.invalid "prose" : Reply Nat)
                else Reply.valid 7) 3).2 2 7 (by omega)
      (fun i h1 h2 => by interval_cases i <;> rfl) (by rfl)
  exact h

/-- C2 counterexample: at the explicit input of a present key and a
transport-level exception, `call_llm` does not return any string (no
`Except.ok`): the exception propagates, contrary to the claim that the raw
error text is surfaced as the response string. -/
theorem C2_transport_counterexample :
    (call_llm (some "azure-key") (TransportOutcome.exn "ConnectionError")).isOk
      = false := by rfl

/-- C2 amended: for every completed HTTP exchange (a response actually
received, whatever its status), `call_llm` returns a string and never
raises — a non-200 response is surfaced as the error text — but an exception
raised by the transport layer itself propagates raw to the caller. -/
theorem C2_transport_amended (key : Option String) (status : Nat)
    (content text e : String) :
    (∃ s, call_llm key (.response status content text) = Except.ok s) ∧
    (key.getD "" ≠ "" → call_llm key (.exn e) = Except.error e) := by
  constructor
  · unfold call_llm
    by_cases hk : key.getD "" = ""
    · exact ⟨"Error: Azure key missing", by simp [hk]⟩
    · by_cases hs : status = 200
      · exact ⟨pyStrip content, by simp [hk, hs]⟩
      · exact ⟨"Error " ++ toString status ++ ": " ++ text, by simp [hk, hs]⟩
  · intro hk
    unfold call_llm
    simp [hk]

/-- Witness for C2's amended theorem at a concrete key and outcome. -/
theorem C2_transport_amended_witness :
    call_llm (some "azure-key") (.exn "ReadTimeout") =
      Except.error "ReadTimeout" :=
  (C2_transport_amended (some "azure-key") 200 "" "" "ReadTimeout").2
    (by decide)

/-! ## Python dict model

Association lists with first-match lookup. Python dict keys are unique;
lemmas that depend on uniqueness carry a `Nodup` hypothesis on the keys. -/

/-- A Python dict with string keys. -/
abbrev PyDict (V : Type) := List (String × V)

/-- `d[k]` / `d.get(k)`: value of the first entry whose key is `k`. -/
def dlookup {V : Type} : PyDict V → String → Option V
  | [], _ => none
  | p :: rest, k => if p.fst = k then some p.snd else dlookup rest k

/-- `d[k] = v`: replace the value in place when the key is present
(Python dicts keep the key's position), otherwise append a new entry. -/
def dictSet {V : Type} : PyDict V → String → V → PyDict V
  | [], k, v => [(k, v)]
  | p :: rest, k, v =>
    if p.fst = k then (k, v) :: rest else p :: dictSet rest k v

/-- Keep only the entries whose key satisfies `q` (used for `d.pop` and for
the key filters below). -/
def keyFilter {V : Type} (q : String → Bool) : PyDict V → PyDict V
  | [] => []
  | p :: rest =>
    if q p.fst then p :: keyFilter q rest else keyFilter q rest

/-- `d.pop(k, None)`: remove the entry for `k` when present. -/
def dictPop {V : Type} (d : PyDict V) (k : String) : PyDict V :=
  keyFilter (fun s => s ≠ k) d

/-- `d.update(patch)`: assign every entry of `patch` into `d`, in order. -/
def dictUpdate {V : Type} (d patch : PyDict V) : PyDict V :=
  patch.foldl (fun acc p => dictSet acc p.fst p.snd) d

theorem dlookup_dictSet_self {V : Type} (d : PyDict V) (k : String) (v : V) :
    dlookup (dictSet d k v) k = some v := by
  induction d with
  | nil => simp [dictSet, dlookup]
  | cons p rest ih =>
    by_cases h : p.fst = k
    · simp [dictSet, h, dlookup]
    · simp only [dictSet, if_neg h]
      simpa [dlookup, h] using ih

theorem dlookup_dictSet_ne {V : Type} (d : PyDict V) (k k' : String) (v : V)
    (h : k' ≠ k) : dlookup (dictSet d k v) k' = dlookup d k' := by
  have hkk : ¬ k = k' := fun hh => h hh.symm
  induction d with
  | nil => simp [dictSet, dlookup, hkk]
  | cons p rest ih =>
    by_cases hp : p.fst = k
    · subst hp
      have hpk : ¬ p.fst = k' := hkk
      simp [dictSet, dlookup, hpk]
    · simp only [dictSet, if_neg hp]
      by_cases hk' : p.fst = k'
      · simp [dlookup, hk']
      · simpa [dlookup, hk'] using ih

theorem dlookup_eq_none_of_not_mem_keys {V : Type} (d : PyDict V)
    (k : String) (h : k ∉ d.map Prod.fst) : dlookup d k = none := by
  induction d with
  | nil => rfl
  | cons p rest ih =>
    simp only [List.map_cons, List.mem_cons] at h
    push_neg at h
    have hne : p.fst ≠ k := fun hh => h.1 hh.symm
    simpa [dlookup, hne] using ih h.2

theorem dlookup_keyFilter {V : Type} (q : String → Bool) (d : PyDict V)
    (k : String) :
    dlookup (keyFilter q d) k = if q k then dlookup d k else none := by
  induction d with
  | nil => simp [keyFilter, dlookup]
  | cons p rest ih =>
    by_cases hq : q p.fst
    · by_cases hk : p.fst = k
      · subst hk
        simp [keyFilter, hq, dlookup]
      · simp only [keyFilter, if_pos hq]
        simpa [dlookup, hk] using ih
    · by_cases hk : p.fst = k
      · subst hk
        simp only [keyFilter, if_neg hq]
        rw [ih]
        simp [hq, dlookup]
      · simp only [keyFilter, if_neg hq]
        rw [ih]
        by_cases hqk : q k <;> simp [hqk, dlookup, hk]

theorem keyFilter_sublist {V : Type} (q : String → Bool) (d : PyDict V) :
    List.Sublist (keyFilter q d) d := by
  induction d with
  | nil => simp [keyFilter]
  | cons p rest ih =>
    by_cases hq : q p.fst
    · simpa [keyFilter, hq] using List.Sublist.cons₂ p ih
    · simpa [keyFilter, hq] using List.Sublist.cons p ih

theorem dlookup_dictUpdate {V : Type} (patch : PyDict V) :
    ∀ (d : PyDict V) (k : String), (patch.map Prod.fst).Nodup →
      dlookup (dictUpdate d patch) k =
        (dlookup patch k).orElse (fun _ => dlookup d k) := by
  induction patch with
  | nil => intro d k _; rfl
  | cons p rest ih =>
    intro d k hnd
    simp only [List.map_cons, List.nodup_cons] at hnd
    have step : dictUpdate d (p :: rest) = dictUpdate (dictSet d p.1 p.2) rest := rfl
    rw [step, ih (dictSet d p.1 p.2) k hnd.2]
    by_cases hk : p.fst = k
    · subst hk
      have hrest : dlookup rest p.fst = none :=
        dlookup_eq_none_of_not_mem_keys rest p.fst hnd.1
      simp [dlookup, hrest, dlookup_dictSet_self, Option.orElse]
    · rw [dlookup_dictSet_ne d p.1 k p.2 (fun hh => hk hh.symm)]
      simp [dlookup, hk]

/-! ## Cascade regeneration (src/app.py lines 1389-1468) -/

/-- A dependency graph: `SECTION_DEPENDENCIES`-shaped dict mapping a section
to the list of sections that must be refreshed when it changes. -/
abbrev DepGraph := List (String × List String)

/-- `SECTION_DEPENDENCIES.get(s, [])`. -/
def depsOf (g : DepGraph) (s : String) : List String :=
  (dlookup g s).getD []

/-- The cascade set of src/app.py lines 1394-1398:
`cascade = {edited} | set(deps(edited))` followed by
`cascade |= {sec for parent in list(cascade) for sec in deps(parent)}`.
Membership in this list models membership in the Python set. -/
def cascade (g : DepGraph) (edited : String) : List String :=
  (edited :: depsOf g edited) ++
    (edited :: depsOf g edited).flatMap (fun parent => depsOf g parent)

/-- C6: the cascade set is exactly the edited section, its direct
dependents, and the dependents of those dependents — nothing at hop
distance ≥ 3 — and an edited section absent from the dependency graph
cascades to itself only. -/
theorem C6_cascade_bounded (g : DepGraph) (edited x : String) :
    (x ∈ cascade g edited ↔
      (x = edited ∨ x ∈ depsOf g edited ∨
        ∃ d, d ∈ depsOf g edited ∧ x ∈ depsOf g d)) ∧
    (dlookup g edited = none → (x ∈ cascade g edited ↔ x = edited)) := by
  constructor
  · simp only [cascade, List.mem_append, List.mem_cons, List.mem_flatMap]
    constructor
    · rintro (h | h)
      · tauto
      · rcases h with ⟨p, hp | hp, hx⟩
        · subst hp; tauto
        · exact Or.inr (Or.inr ⟨p, hp, hx⟩)
    · rintro (h | h | ⟨d, hd, hx⟩)
      · tauto
      · tauto
      · exact Or.inr ⟨d, Or.inr hd, hx⟩
  · intro habs
    have hd : depsOf g edited = [] := by simp [depsOf, habs]
    simp [cascade, hd]

/-- Witness for C6 on Scenario E's dependency graph
`A → [B], B → [C], C → [D]`: `C` (two hops) is in the cascade of `A`, `D`
(three hops) is not, and a section `Z` absent from the graph cascades to
itself. -/
theorem C6_cascade_bounded_witness :
    ("C" ∈ cascade [("A", ["B"]), ("B", ["C"]), ("C", ["D"])] "A") ∧
    ("D" ∉ cascade [("A", ["B"]), ("B", ["C"]), ("C", ["D"])] "A") ∧
    ("Z" ∈ cascade [("A", ["B"]), ("B", ["C"]), ("C", ["D"])] "Z") := by
  refine ⟨?_, ?_, ?_⟩
  · exact (C6_cascade_bounded [("A", ["B"]), ("B", ["C"]), ("C", ["D"])]
      "A" "C").1.mpr (Or.inr (Or.inr ⟨"B", by decide, by decide⟩))
  · intro hmem
    have h := (C6_cascade_bounded [("A", ["B"]), ("B", ["C"]), ("C", ["D"])]
      "A" "D").1.mp hmem
    revert h; decide
  · exact ((C6_cascade_bounded [("A", ["B"]), ("B", ["C"]), ("C", ["D"])]
      "Z" "Z").2 (by decide)).mpr rfl

/-! ## Cascade patch application (src/app.py lines 1439-1447) -/

/-- The patch actually merged (src/app.py lines 1441-1444):
`raw_patch.pop("title", None)` then keep only keys inside the cascade set. -/
def valid_patch {V : Type} (raw_patch : PyDict V) (cas : List String) :
    PyDict V :=
  keyFilter (fun s => s ∈ cas) (dictPop raw_patch "title")

/-- `concept.update(valid_patch)` (src/app.py line 1445). -/
def applyPatch {V : Type} (concept raw_patch : PyDict V) (cas : List String) :
    PyDict V :=
  dictUpdate concept (valid_patch raw_patch cas)

theorem dlookup_valid_patch {V : Type} (raw_patch : PyDict V)
    (cas : List String) (k : String) :
    dlookup (valid_patch raw_patch cas) k =
      if k ≠ "title" ∧ k ∈ cas then dlookup raw_patch k else none := by
  rw [valid_patch, dictPop, dlookup_keyFilter, dlookup_keyFilter]
  by_cases hc : k ∈ cas
  · by_cases ht : k = "title"
    · simp [hc, ht]
    · simp [hc, ht]
  · simp [hc]

/-- C7: merging a cascade patch touches exactly the returned keys that lie
inside the cascade set minus the protected title key: for such a key the
live document takes the patch value, every other key (the title included,
whatever the agent returned for it) keeps its prior value. -/
theorem C7_patch_frame {V : Type} (concept raw_patch : PyDict V)
    (cas : List String) (k : String)
    (hnd : (raw_patch.map Prod.fst).Nodup) :
    (dlookup (applyPatch concept raw_patch cas) k =
       if k ≠ "title" ∧ k ∈ cas then
         (dlookup raw_patch k).orElse (fun _ => dlookup concept k)
       else dlookup concept k) ∧
    dlookup (applyPatch concept raw_patch cas) "title" =
      dlookup concept "title" := by
  have hndf : ((valid_patch raw_patch cas).map Prod.fst).Nodup := by
    have hsub : List.Sublist ((valid_patch raw_patch cas).map Prod.fst)
        (raw_patch.map Prod.fst) := by
      refine List.Sublist.map Prod.fst ?_
      exact List.Sublist.trans
        (keyFilter_sublist _ (dictPop raw_patch "title"))
        (keyFilter_sublist _ raw_patch)
    exact List.Nodup.sublist hsub hnd
  have hmain : ∀ k' : String,
      dlookup (applyPatch concept raw_patch cas) k' =
        if k' ≠ "title" ∧ k' ∈ cas then
          (dlookup raw_patch k').orElse (fun _ => dlookup concept k')
        else dlookup concept k' := by
    intro k'
    rw [applyPatch, dlookup_dictUpdate _ concept k' hndf, dlookup_valid_patch]
    by_cases h : k' ≠ "title" ∧ k' ∈ cas
    · simp [h]
    · simp [h, Option.orElse]
  refine ⟨hmain k, ?_⟩
  have := hmain "title"
  simpa using this

/-- Witness for C7 at a concrete document, patch and cascade set: the agent
returns a title change, an in-cascade key and an out-of-cascade key; only
the in-cascade non-title key lands. -/
theorem C7_patch_frame_witness :
    dlookup (applyPatch
        [("title", "T0"), ("technical_details", "old"), ("budget", "b0")]
        [("title", "evil"), ("technical_details", "new"), ("budget", "b1")]
        ["technical_details", "performance_targets"]) "technical_details" =
      some "new" ∧
    dlookup (applyPatch
        [("title", "T0"), ("technical_details", "old"), ("budget", "b0")]
        [("title", "evil"), ("technical_details", "new"), ("budget", "b1")]
        ["technical_details", "performance_targets"]) "title" = some "T0" ∧
    dlookup (applyPatch
        [("title", "T0"), ("technical_details", "old"), ("budget", "b0")]
        [("title", "evil"), ("technical_details", "new"), ("budget", "b1")]
        ["technical_details", "performance_targets"]) "budget" =
      some "b0" := by
  refine ⟨?_, ?_, ?_⟩
  · have h := (C7_patch_frame
      [("title", "T0"), ("technical_details", "old"), ("budget", "b0")]
      [("title", "evil"), ("technical_details", "new"), ("budget", "b1")]
      ["technical_details", "performance_targets"] "technical_details"
      (by decide)).1
    rw [h]; decide
  · exact (C7_patch_frame
      [("title", "T0"), ("technical_details", "old"), ("budget", "b0")]
      [("title", "evil"), ("technical_details", "new"), ("budget", "b1")]
      ["technical_details", "performance_targets"] "title" (by decide)).2
  · have h := (C7_patch_frame
      [("title", "T0"), ("technical_details", "old"), ("budget", "b0")]
      [("title", "evil"), ("technical_details", "new"), ("budget", "b1")]
      ["technical_details", "performance_targets"] "budget" (by decide)).1
    rw [h]; decide

/-! ## Validated-TRL citation write-back (src/app.py lines 772-788) -/

/-- One gathered evidence item (`gather_evidence` result entry): only the
snippet and the source URL are read by the write-back. -/
structure Evid where
  snippet : String
  source_url : String
deriving DecidableEq, Repr

/-- One entry of the `citations` list returned by the TRL agent. JSON
decoding can hand back any value; the code keeps only Python `int`s
(`isinstance(idx, int)`), so everything else is collapsed into `other`. -/
inductive CitationIdx where
  | intv (n : Int)
  | other
deriving DecidableEq, Repr

/-- The `urls` loop of src/app.py lines 777-780: append
`evidence[idx - 1]["source_url"]` for every cited index that is an int and
satisfies `1 <= idx <= len(evidence)`; skip everything else. -/
def citationLoop (evidence : List Evid) (urls : List String) :
    List CitationIdx → List String
  | [] => urls
  | c :: rest =>
    match c with
    | .intv n =>
      if 1 ≤ n ∧ n ≤ (evidence.length : Int) then
        citationLoop evidence
          (urls ++ [((evidence.get? (n - 1).toNat).getD ⟨"", ""⟩).source_url])
          rest
      else citationLoop evidence urls rest
    | .other => citationLoop evidence urls rest

def citationUrls (evidence : List Evid) (cits : List CitationIdx) :
    List String :=
  citationLoop evidence [] cits

/-- Src/app.py lines 783-786: append `"Citations: url1, url2"` to the
justification exactly when at least one URL survived. -/
def combinedJustification (just_raw : String) (urls : List String) : String :=
  if urls ≠ [] then
    just_raw ++ "\n\nCitations: " ++ String.intercalate ", " urls
  else just_raw

theorem mem_citationLoop (evidence : List Evid) :
    ∀ (cits : List CitationIdx) (urls : List String) (u : String),
      u ∈ citationLoop evidence urls cits ↔
        (u ∈ urls ∨ ∃ n : Int, CitationIdx.intv n ∈ cits ∧ 1 ≤ n ∧
          n ≤ (evidence.length : Int) ∧
          u = ((evidence.get? (n - 1).toNat).getD ⟨"", ""⟩).source_url) := by
  intro cits
  induction cits with
  | nil => intro urls u; simp [citationLoop]
  | cons c rest ih =>
    intro urls u
    cases c with
    | intv n =>
      by_cases h : 1 ≤ n ∧ n ≤ (evidence.length : Int)
      · simp only [citationLoop, if_pos h]
        rw [ih]
        constructor
        · rintro (hu | ⟨m, hm, h1, h2, he⟩)
          · rcases List.mem_append.mp hu with hu | hu
            · exact Or.inl hu
            · refine Or.inr ⟨n, by simp, h.1, h.2, ?_⟩
              simpa using hu
          · exact Or.inr ⟨m, List.mem_cons_of_mem _ hm, h1, h2, he⟩
        · rintro (hu | ⟨m, hm, h1, h2, he⟩)
          · exact Or.inl (List.mem_append.mpr (Or.inl hu))
          · rcases List.mem_cons.mp hm with hm | hm
            · have hmn : m = n := by injection hm
              subst hmn
              exact Or.inl (List.mem_append.mpr (Or.inr (by simp [he])))
            · exact Or.inr ⟨m, hm, h1, h2, he⟩
      · simp only [citationLoop, if_neg h]
        rw [ih]
        constructor
        · rintro (hu | ⟨m, hm, h1, h2, he⟩)
          · exact Or.inl hu
          · exact Or.inr ⟨m, List.mem_cons_of_mem _ hm, h1, h2, he⟩
        · rintro (hu | ⟨m, hm, h1, h2, he⟩)
          · exact Or.inl hu
          · rcases List.mem_cons.mp hm with hm | hm
            · exfalso; apply h; injection hm with hmn; rw [← hmn]; exact ⟨h1, h2⟩
            · exact Or.inr ⟨m, hm, h1, h2, he⟩
    | other =>
      simp only [citationLoop]
      rw [ih]
      constructor
      · rintro (hu | ⟨m, hm, h1, h2, he⟩)
        · exact Or.inl hu
        · exact Or.inr ⟨m, List.mem_cons_of_mem _ hm, h1, h2, he⟩
      · rintro (hu | ⟨m, hm, h1, h2, he⟩)
        · exact Or.inl hu
        · rcases List.mem_cons.mp hm with hm | hm
          · cases hm
          · exact Or.inr ⟨m, hm, h1, h2, he⟩

/-- C10: every URL written into `validated_trl_citations` (and appended to
the justification) comes from a cited index `n` that the agent returned as
an integer with `1 ≤ n ≤ len(evidence)`, and the evidence list access
`evidence[n - 1]` is in bounds (`get?` is `some`); non-integer and
out-of-range indices contribute nothing. -/
theorem C10_citation_bounds (evidence : List Evid)
    (cits : List CitationIdx) (u : String)
    (hu : u ∈ citationUrls evidence cits) :
    ∃ (n : Int) (e : Evid), CitationIdx.intv n ∈ cits ∧ 1 ≤ n ∧
      n ≤ (evidence.length : Int) ∧
      evidence.get? (n - 1).toNat = some e ∧ u = e.source_url := by
  have h := (mem_citationLoop evidence cits [] u).mp hu
  rcases h with h | ⟨n, hn, h1, h2, he⟩
  · cases h
  have hlt : (n - 1).toNat < evidence.length := by omega
  have hget : evidence.get? (n - 1).toNat = some (evidence.get ⟨_, hlt⟩) :=
    List.get?_eq_get hlt
  exact ⟨n, evidence.get ⟨_, hlt⟩, hn, h1, h2, hget, by rw [he, hget]; rfl⟩

/-- Witness for C10 at a concrete evidence list and citation list holding a
valid index, a non-integer entry and an out-of-range index. -/
theorem C10_citation_bounds_witness :
    ∃ (n : Int) (e : Evid),
      CitationIdx.intv n ∈
        [CitationIdx.intv 1, CitationIdx.other, CitationIdx.intv 5] ∧
      1 ≤ n ∧ n ≤ (([⟨"snip", "https-example"⟩] : List Evid).length : Int) ∧
      ([⟨"snip", "https-example"⟩] : List Evid).get? (n - 1).toNat = some e ∧
      "https-example" = e.source_url :=
  C10_citation_bounds [⟨"snip", "https-example"⟩]
    [CitationIdx.intv 1, CitationIdx.other, CitationIdx.intv 5]
    "https-example" (by decide)

/-! ## difflib.SequenceMatcher (CPython), as used by the fuzzy dedupe of
`ideate_review_refactor` (src/app.py line 1017):
`SequenceMatcher(None, norm, e).ratio() >= 0.75`.

The embedding follows CPython's `difflib.py` with `isjunk = None` (so the
junk set is empty and the junk extension loops are no-ops) and the default
`autojunk = True` (elements occurring more than `len(b) // 100 + 1` times
are dropped from `b2j` when `len(b) >= 200`). Recursions are fuelled with
`len(a) + len(b) + 1`, which exceeds the recursion depth of
`get_matching_blocks` (each split strictly shrinks the combined range). -/

/-- `b2j` before autojunk: the ascending positions of `c` in `b`. -/
def b2jRaw (b : List Char) (c : Char) : List Nat :=
  (List.range b.length).filter (fun j => b.getD j 'b' = c)

/-- `b2j` after the autojunk pass of `__chain_b`: when `len(b) >= 200`,
elements with more than `len(b) // 100 + 1` occurrences are deleted. -/
def b2jOf (b : List Char) (c : Char) : List Nat :=
  let idxs := b2jRaw b c
  if 200 ≤ b.length ∧ b.length / 100 + 1 < idxs.length then [] else idxs

/-- The running best match of `find_longest_match`:
`besti, bestj, bestsize`. -/
structure FlmState where
  besti : Nat
  bestj : Nat
  size : Nat
deriving DecidableEq, Repr

/-- `j2len.get(j - 1, 0)` on the association-list representation of the
`j2len` dict. -/
def j2lenGet (m : List (Nat × Nat)) (j : Nat) : Nat :=
  match m.find? (fun p => p.fst = j) with
  | some p => p.snd
  | none => 0

/-- The double loop of `find_longest_match`: for each `i` in
`range(alo, ahi)` walk the positions of `a[i]` in `b` restricted to
`[blo, bhi)` (`continue` below `blo`, `break` at `bhi`; the positions are
ascending, so this is a filter), chaining `j2len` and updating the best
match on a strict improvement. -/
def flmScan (a : List Char) (bj : Char → List Nat) (alo ahi blo bhi : Nat) :
    FlmState :=
  ((List.range' alo (ahi - alo)).foldl
    (fun (st : FlmState × List (Nat × Nat)) i =>
      ((bj (a.getD i 'a')).filter
          (fun j => decide (blo ≤ j) && decide (j < bhi))).foldl
        (fun (st2 : FlmState × List (Nat × Nat)) j =>
          let k := (if j = 0 then 0 else j2lenGet st.2 (j - 1)) + 1
          let nb := if st2.1.size < k then FlmState.mk (i + 1 - k) (j + 1 - k) k
                    else st2.1
          (nb, st2.2 ++ [(j, k)]))
        (st.1, []))
    (⟨alo, blo, 0⟩, [])).1

/-- The first `while` of `find_longest_match`: extend the block left over
equal (non-junk; the junk set is empty) elements. -/
def extendLeft (a b : List Char) (alo blo : Nat) : Nat → FlmState → FlmState
  | 0, m => m
  | fuel + 1, m =>
    if alo < m.besti ∧ blo < m.bestj ∧
        a.getD (m.besti - 1) 'a' = b.getD (m.bestj - 1) 'b' then
      extendLeft a b alo blo fuel ⟨m.besti - 1, m.bestj - 1, m.size + 1⟩
    else m

/-- The second `while` of `find_longest_match`: extend the block right over
equal elements. -/
def extendRight (a b : List Char) (ahi bhi : Nat) : Nat → FlmState → FlmState
  | 0, m => m
  | fuel + 1, m =>
    if m.besti + m.size < ahi ∧ m.bestj + m.size < bhi ∧
        a.getD (m.besti + m.size) 'a' = b.getD (m.bestj + m.size) 'b' then
      extendRight a b ahi bhi fuel ⟨m.besti, m.bestj, m.size + 1⟩
    else m

/-- `find_longest_match(alo, ahi, blo, bhi)` with empty junk set. -/
def find_longest_match (a b : List Char) (bj : Char → List Nat)
    (alo ahi blo bhi : Nat) : FlmState :=
  extendRight a b ahi bhi (a.length + b.length + 1)
    (extendLeft a b alo blo (a.length + b.length + 1)
      (flmScan a bj alo ahi blo bhi))

/-- Total size of the matching blocks of `get_matching_blocks` restricted
to the range `[alo, ahi) × [blo, bhi)` — `.ratio()` only needs this sum.
The queue recursion of the source splits on the longest match exactly when
each side range is non-empty. -/
def matchesTotal (a b : List Char) (bj : Char → List Nat) :
    Nat → Nat → Nat → Nat → Nat → Nat
  | 0, _, _, _, _ => 0
  | fuel + 1, alo, ahi, blo, bhi =>
    let m := find_longest_match a b bj alo ahi blo bhi
    if m.size = 0 then 0
    else
      (if alo < m.besti ∧ blo < m.bestj then
         matchesTotal a b bj fuel alo m.besti blo m.bestj
       else 0)
      + m.size +
      (if m.besti + m.size < ahi ∧ m.bestj + m.size < bhi then
         matchesTotal a b bj fuel (m.besti + m.size) ahi
           (m.bestj + m.size) bhi
       else 0)

/-- `sum(size for _, _, size in SequenceMatcher(None, a, b).get_matching_blocks())`. -/
def smMatches (a b : List Char) : Nat :=
  matchesTotal a b (b2jOf b) (a.length + b.length + 1) 0 a.length 0 b.length

/-- `SequenceMatcher(None, a, b).ratio() >= 0.75` in exact arithmetic:
`2 * M / T >= 3/4` iff `3 * T <= 8 * M`. The float comparison of the source
agrees with the exact one: `2 * M` and `T` are exactly representable, the
quotient is computed with one rounding of relative error `2^-53`, and when
`2M/T ≠ 3/4` the two differ by at least `1 / (4T)`, far above that error
for any feasible title length; `_calculate_ratio` returns `1.0` when
`T = 0`, and `3 * 0 ≤ 8 * M` also holds. -/
def smRatioGE75 (a b : List Char) : Bool :=
  3 * (a.length + b.length) ≤ 8 * smMatches a b

/-! ## Fuzzy dedupe phase of `ideate_review_refactor`
(src/app.py lines 963-1021) -/

/-- `_normalize_title` (src/app.py lines 964-965): lower-case, then strip
every character outside `[a-z0-9]`. Python's `str.lower` is Unicode-wide
while `Char.toLower` lowers ASCII; on the ASCII range (all that the
`[^a-z0-9]` filter can keep) they agree. -/
def normalize_title (t : String) : List Char :=
  (t.toList.map Char.toLower).filter
    (fun c => (decide ('a' ≤ c) && decide (c ≤ 'z')) ||
      (decide ('0' ≤ c) && decide (c ≤ '9')))

/-- `sol.get("title", sol.get("Title", ""))` (src/app.py line 1014). -/
def titleForDedupe (sol : PyDict String) : String :=
  match dlookup sol "title" with
  | some v => v
  | none => (dlookup sol "Title").getD ""

/-- The drop test of src/app.py line 1017:
`any(SequenceMatcher(None, norm, e).ratio() >= 0.75 for e in existing_norms)`. -/
def dropCandidate (existing_norms : List (List Char))
    (sol : PyDict String) : Bool :=
  existing_norms.any
    (fun e => smRatioGE75 (normalize_title (titleForDedupe sol)) e)

/-- The `filtered` loop of src/app.py lines 997-1020. At this point `raw`
holds only dicts (line 992 filtered out everything else), so the
`isinstance(item, str)` JSON-reparse branch and the final `else: continue`
are unreachable and the loop is a pure filter. -/
def dedupeLoop (existing_norms : List (List Char)) :
    List (PyDict String) → List (PyDict String)
  | [] => []
  | sol :: rest =>
    if dropCandidate existing_norms sol then dedupeLoop existing_norms rest
    else sol :: dedupeLoop existing_norms rest

/-- C3: a candidate survives the fuzzy dedupe iff no normalized existing
title has SequenceMatcher ratio ≥ 0.75 against its normalized title (so a
candidate is dropped iff some existing norm is that similar), and with no
existing titles the candidate list is returned unchanged. -/
theorem C3_dedupe_filter (raw : List (PyDict String))
    (existing_norms : List (List Char)) (sol : PyDict String) :
    (sol ∈ dedupeLoop existing_norms raw ↔
      (sol ∈ raw ∧ ¬ ∃ e, e ∈ existing_norms ∧
        smRatioGE75 (normalize_title (titleForDedupe sol)) e = true)) ∧
    dedupeLoop [] raw = raw := by
  constructor
  · induction raw with
    | nil => simp [dedupeLoop]
    | cons s rest ih =>
      by_cases hd : dropCandidate existing_norms s
      · rw [dedupeLoop, if_pos hd, ih]
        constructor
        · rintro ⟨hmem, hno⟩
          exact ⟨List.mem_cons_of_mem _ hmem, hno⟩
        · rintro ⟨hmem, hno⟩
          rcases List.mem_cons.mp hmem with hmem | hmem
          · exfalso
            apply hno
            subst hmem
            simpa [dropCandidate, List.any_eq_true] using hd
          · exact ⟨hmem, hno⟩
      · rw [dedupeLoop, if_neg hd]
        constructor
        · intro hmem
          rcases List.mem_cons.mp hmem with hmem | hmem
          · subst hmem
            refine ⟨List.mem_cons_self _ _, ?_⟩
            simpa [dropCandidate, List.any_eq_true] using hd
          · rcases ih.mp hmem with ⟨h1, h2⟩
            exact ⟨List.mem_cons_of_mem _ h1, h2⟩
        · rintro ⟨hmem, hno⟩
          rcases List.mem_cons.mp hmem with hmem | hmem
          · subst hmem; exact List.mem_cons_self _ _
          · exact List.mem_cons_of_mem _ (ih.mpr ⟨hmem, hno⟩)
  · induction raw with
    | nil => rfl
    | cons s rest ih =>
      rw [dedupeLoop]
      rw [if_neg (by simp [dropCandidate])]
      rw [ih]

/-! ## `ideate_review_refactor` (src/app.py lines 953-1113)

The embedding starts after the collection step: lines 981-992 unwrap a
possible `solutions` key and keep only dict items, so `rawCollected` below
is that list of dicts. The reviewer agents and refine agents are external:
`reviewers` holds, per review agent, the `solutions` list extracted from
its reply (an agent that raises contributes `[]`, matching the
`except: fb = ... []` handler), and `refiner ag` the `solutions` list of
ideation agent `ag`'s refine reply. `asyncio.gather` interleaves the
reviewer appends nondeterministically; the fold below is one
linearization, and the proved key-set facts are order-independent. -/

/-- One entry of a reviewer's `solutions` array, after
`item.get("title", "")` / `item.get("comment", "")`. -/
structure ReviewItem where
  title : String
  comment : String
deriving DecidableEq, Repr

/-- Python truthiness of an optional string: `None` and `""` are falsy. -/
def truthyStr : Option String → Option String
  | some s => if s = "" then none else some s
  | none => none

/-- `sol.get("title") or sol.get("Title")` (src/app.py line 1045). -/
def titleOrTitle (sol : PyDict String) : Option String :=
  match truthyStr (dlookup sol "title") with
  | some t => some t
  | none => truthyStr (dlookup sol "Title")

/-- Phase 1.3 (src/app.py lines 1037-1039):
`if "Title" in sol and "title" not in sol: sol["title"] = sol.pop("Title")`. -/
def renameTitleKey (sol : PyDict String) : PyDict String :=
  match dlookup sol "title", dlookup sol "Title" with
  | none, some v => dictSet (dictPop sol "Title") "title" v
  | _, _ => sol

/-- One step of the phase-2 seeding loop (src/app.py lines 1043-1049):
`feedback[title] = []` for a truthy title, skip otherwise. -/
def initFeedbackStep (fb : PyDict (List String)) (sol : PyDict String) :
    PyDict (List String) :=
  match titleOrTitle sol with
  | some t => dictSet fb t []
  | none => fb

/-- The phase-2 seeding loop: every surviving candidate with a truthy
title gets an empty comment list. -/
def initFeedback (raw : List (PyDict String)) : PyDict (List String) :=
  raw.foldl initFeedbackStep []

/-- `feedback.setdefault(t, []).append(c)` (src/app.py line 1066). -/
def fbSetdefaultAppend (fb : PyDict (List String)) (t c : String) :
    PyDict (List String) :=
  match dlookup fb t with
  | some cs => dictSet fb t (cs ++ [c])
  | none => fb ++ [(t, [c])]

/-- One reviewer item (src/app.py lines 1062-1066): strip title and
comment, record the comment only when both are non-empty. -/
def reviewStep (fb : PyDict (List String)) (it : ReviewItem) :
    PyDict (List String) :=
  if (pyStrip it.title) ≠ "" ∧ (pyStrip it.comment) ≠ "" then
    fbSetdefaultAppend fb (pyStrip it.title) (pyStrip it.comment)
  else fb

/-- The whole `for item in fb.get("solutions", [])` loop of one `_review`
call. -/
def applyReview (fb : PyDict (List String)) (items : List ReviewItem) :
    PyDict (List String) :=
  items.foldl reviewStep fb

/-- Phase 3 (src/app.py lines 1075-1111): each ideation agent with at
least one surviving concept is asked to refine; its reply's `solutions`
get `s["agent"] = ideator` stamped on. `refiner` is the external agent
reply (an agent that raises contributes `[]`). -/
def refineOutputs (raw2 : List (PyDict String)) (ideation_agents : List String)
    (refiner : String → List (PyDict String)) : List (PyDict String) :=
  ideation_agents.flatMap (fun ag =>
    if (raw2.filter (fun s => dlookup s "agent" = some ag)).isEmpty then []
    else (refiner ag).map (fun s => dictSet s "agent" ag))

/-- The synthetic record of src/app.py lines 1030-1034. -/
def syntheticNoNewConcepts : PyDict String :=
  [("agent", "System"), ("title", "No new concepts"),
   ("description",
    "Unable to come up with any concepts not already in your database.")]

/-- `existing_norms` (src/app.py lines 967-969):
`_normalize_title(c.get("title", ""))` for each existing concept. -/
def existingNormsOf (existing_concepts : List (PyDict String)) :
    List (List Char) :=
  existing_concepts.map (fun c => normalize_title ((dlookup c "title").getD ""))

/-- The result triple `(raw, feedback, refined)`. -/
structure IRRResult where
  raw : List (PyDict String)
  feedback : PyDict (List String)
  refined : List (PyDict String)
deriving DecidableEq, Repr

/-- `ideate_review_refactor` from the dedupe phase on (src/app.py lines
995-1113): fuzzy-dedupe against the existing titles, bail out with the
synthetic record when existing concepts were supplied and nothing
survived, otherwise rename `Title` keys, seed the feedback map, run the
reviewers, and refine. -/
def ideate_review_refactor (rawCollected existing_concepts : List (PyDict String))
    (reviewers : List (List ReviewItem)) (ideation_agents : List String)
    (refiner : String → List (PyDict String)) : IRRResult :=
  let filtered := dedupeLoop (existingNormsOf existing_concepts) rawCollected
  if existingNormsOf existing_concepts ≠ [] ∧ filtered = [] then
    ⟨[], [], [syntheticNoNewConcepts]⟩
  else
    let raw2 := filtered.map renameTitleKey
    ⟨raw2, reviewers.foldl applyReview (initFeedback raw2),
     refineOutputs raw2 ideation_agents refiner⟩

/-- C4: when existing concepts were supplied and the dedupe filter leaves
no candidate, the orchestration returns exactly
`([], {}, [synthetic "No new concepts" record])` as a normal value — for
every reviewer behaviour and every refiner behaviour, so no review or
refine agent can influence (or is needed for) the result. -/
theorem C4_no_novel_terminal (rawCollected existing_concepts : List (PyDict String))
    (reviewers : List (List ReviewItem)) (ideation_agents : List String)
    (refiner : String → List (PyDict String))
    (hex : existing_concepts ≠ [])
    (hempty : dedupeLoop (existingNormsOf existing_concepts) rawCollected = []) :
    ideate_review_refactor rawCollected existing_concepts reviewers
      ideation_agents refiner = ⟨[], [], [syntheticNoNewConcepts]⟩ := by
  have hne : existingNormsOf existing_concepts ≠ [] := by
    simpa [existingNormsOf] using hex
  simp only [ideate_review_refactor]
  rw [if_pos ⟨hne, hempty⟩]

/-- Witness for C4: one existing concept whose normalized title equals the
sole candidate's, so the dedupe drops everything and the synthetic record
is returned, whatever the (here concrete) reviewers and refiner would say. -/
theorem C4_no_novel_terminal_witness :
    ideate_review_refactor [[("title", "Foam!")]] [[("title", "foam")]]
      [[⟨"Foam!", "nice"⟩]] ["Alpha"] (fun _ => [[("title", "ghost")]]) =
      ⟨[], [], [syntheticNoNewConcepts]⟩ :=
  C4_no_novel_terminal [[("title", "Foam!")]] [[("title", "foam")]]
    [[⟨"Foam!", "nice"⟩]] ["Alpha"] (fun _ => [[("title", "ghost")]])
    (by decide) (by decide)

theorem mem_keys_dictSet {V : Type} (d : PyDict V) (t k : String) (v : V) :
    k ∈ (dictSet d t v).map Prod.fst ↔ k ∈ d.map Prod.fst ∨ k = t := by
  induction d with
  | nil => simp [dictSet]
  | cons p rest ih =>
    by_cases hp : p.fst = t
    · subst hp
      have hset : dictSet (p :: rest) p.fst v = (p.fst, v) :: rest := by
        simp [dictSet]
      rw [hset]
      simp only [List.map_cons, List.mem_cons]
      tauto
    · simp only [dictSet, if_neg hp, List.map_cons, List.mem_cons]
      rw [ih]
      tauto

theorem dlookup_append_single_ne {V : Type} (d : PyDict V) (t k : String)
    (v : V) (h : k ≠ t) : dlookup (d ++ [(t, v)]) k = dlookup d k := by
  induction d with
  | nil => simpa [dlookup] using fun hh => h hh.symm
  | cons p rest ih =>
    by_cases hp : p.fst = k
    · simp [dlookup, hp]
    · simpa [dlookup, hp] using ih

theorem mem_keys_fbSetdefaultAppend (fb : PyDict (List String)) (t c k : String) :
    k ∈ (fbSetdefaultAppend fb t c).map Prod.fst ↔
      k ∈ fb.map Prod.fst ∨ k = t := by
  rw [fbSetdefaultAppend]
  cases h : dlookup fb t with
  | some cs => exact mem_keys_dictSet fb t k (cs ++ [c])
  | none => simp

theorem dlookup_fbSetdefaultAppend_ne (fb : PyDict (List String))
    (t c k : String) (h : k ≠ t) :
    dlookup (fbSetdefaultAppend fb t c) k = dlookup fb k := by
  rw [fbSetdefaultAppend]
  cases ht : dlookup fb t with
  | some cs => exact dlookup_dictSet_ne fb t k _ h
  | none => exact dlookup_append_single_ne fb t k _ h

theorem mem_keys_applyReview (items : List ReviewItem) :
    ∀ (fb : PyDict (List String)) (k : String),
      k ∈ (applyReview fb items).map Prod.fst ↔
        k ∈ fb.map Prod.fst ∨ ∃ it, it ∈ items ∧ (pyStrip it.title) = k ∧
          (pyStrip it.title) ≠ "" ∧ (pyStrip it.comment) ≠ "" := by
  induction items with
  | nil => intro fb k; simp [applyReview]
  | cons it rest ih =>
    intro fb k
    have step : applyReview fb (it :: rest) = applyReview (reviewStep fb it) rest := rfl
    rw [step, ih]
    by_cases hc : (pyStrip it.title) ≠ "" ∧ (pyStrip it.comment) ≠ ""
    · rw [reviewStep, if_pos hc, mem_keys_fbSetdefaultAppend]
      constructor
      · rintro ((h | h) | ⟨w, hw, h1, h2, h3⟩)
        · exact Or.inl h
        · exact Or.inr ⟨it, List.mem_cons_self _ _, h.symm, hc.1, hc.2⟩
        · exact Or.inr ⟨w, List.mem_cons_of_mem _ hw, h1, h2, h3⟩
      · rintro (h | ⟨w, hw, h1, h2, h3⟩)
        · exact Or.inl (Or.inl h)
        · rcases List.mem_cons.mp hw with hw | hw
          · subst hw; exact Or.inl (Or.inr h1.symm)
          · exact Or.inr ⟨w, hw, h1, h2, h3⟩
    · rw [reviewStep, if_neg hc]
      constructor
      · rintro (h | ⟨w, hw, h1, h2, h3⟩)
        · exact Or.inl h
        · exact Or.inr ⟨w, List.mem_cons_of_mem _ hw, h1, h2, h3⟩
      · rintro (h | ⟨w, hw, h1, h2, h3⟩)
        · exact Or.inl h
        · rcases List.mem_cons.mp hw with hw | hw
          · exact absurd (hw ▸ And.intro h2 h3) hc
          · exact Or.inr ⟨w, hw, h1, h2, h3⟩

theorem dlookup_applyReview_of_no_match (items : List ReviewItem) :
    ∀ (fb : PyDict (List String)) (k : String),
      (∀ it, it ∈ items → (pyStrip it.title) ≠ k) →
      dlookup (applyReview fb items) k = dlookup fb k := by
  induction items with
  | nil => intro fb k _; rfl
  | cons it rest ih =>
    intro fb k h
    have step : applyReview fb (it :: rest) = applyReview (reviewStep fb it) rest := rfl
    rw [step, ih _ k (fun w hw => h w (List.mem_cons_of_mem _ hw))]
    rw [reviewStep]
    by_cases hc : (pyStrip it.title) ≠ "" ∧ (pyStrip it.comment) ≠ ""
    · rw [if_pos hc]
      exact dlookup_fbSetdefaultAppend_ne fb _ _ k
        (fun hh => h it (List.mem_cons_self _ _) hh.symm)
    · rw [if_neg hc]

theorem mem_keys_initFeedback_fold (raw : List (PyDict String)) :
    ∀ (fb : PyDict (List String)) (k : String),
      k ∈ (raw.foldl initFeedbackStep fb).map Prod.fst ↔
        k ∈ fb.map Prod.fst ∨ ∃ sol, sol ∈ raw ∧ titleOrTitle sol = some k := by
  induction raw with
  | nil => intro fb k; simp
  | cons sol rest ih =>
    intro fb k
    have step : (sol :: rest).foldl initFeedbackStep fb =
      rest.foldl initFeedbackStep (initFeedbackStep fb sol) := rfl
    rw [step, ih]
    cases ht : titleOrTitle sol with
    | some t =>
      rw [initFeedbackStep, ht, mem_keys_dictSet]
      constructor
      · rintro ((h | h) | ⟨w, hw, hww⟩)
        · exact Or.inl h
        · exact Or.inr ⟨sol, List.mem_cons_self _ _, by rw [ht, h]⟩
        · exact Or.inr ⟨w, List.mem_cons_of_mem _ hw, hww⟩
      · rintro (h | ⟨w, hw, hww⟩)
        · exact Or.inl (Or.inl h)
        · rcases List.mem_cons.mp hw with hw | hw
          · subst hw
            rw [ht] at hww
            exact Or.inl (Or.inr (by injection hww with hh; exact hh.symm))
          · exact Or.inr ⟨w, hw, hww⟩
    | none =>
      rw [initFeedbackStep, ht]
      constructor
      · rintro (h | ⟨w, hw, hww⟩)
        · exact Or.inl h
        · exact Or.inr ⟨w, List.mem_cons_of_mem _ hw, hww⟩
      · rintro (h | ⟨w, hw, hww⟩)
        · exact Or.inl h
        · rcases List.mem_cons.mp hw with hw | hw
          · subst hw; rw [ht] at hww; cases hww
          · exact Or.inr ⟨w, hw, hww⟩

theorem dlookup_initFeedback_fold_empty (raw : List (PyDict String)) :
    ∀ (fb : PyDict (List String)) (k : String),
      (dlookup fb k = none ∨ dlookup fb k = some []) →
      (dlookup (raw.foldl initFeedbackStep fb) k = none ∨
       dlookup (raw.foldl initFeedbackStep fb) k = some []) := by
  induction raw with
  | nil => intro fb k h; exact h
  | cons sol rest ih =>
    intro fb k h
    have step : (sol :: rest).foldl initFeedbackStep fb =
      rest.foldl initFeedbackStep (initFeedbackStep fb sol) := rfl
    rw [step]
    refine ih _ k ?_
    rw [initFeedbackStep]
    cases ht : titleOrTitle sol with
    | some t =>
      by_cases hk : k = t
      · subst hk
        exact Or.inr (dlookup_dictSet_self fb k [])
      · rw [dlookup_dictSet_ne fb t k [] hk]
        exact h
    | none => exact h

theorem dlookup_some_of_mem_keys {V : Type} (d : PyDict V) (k : String)
    (h : k ∈ d.map Prod.fst) : ∃ v, dlookup d k = some v := by
  induction d with
  | nil => cases h
  | cons p rest ih =>
    by_cases hp : p.fst = k
    · exact ⟨p.snd, by simp [dlookup, hp]⟩
    · rcases List.mem_cons.mp h with h | h
      · exact absurd h.symm hp
      · rcases ih h with ⟨v, hv⟩
        exact ⟨v, by simp [dlookup, hp, hv]⟩

theorem mem_keys_reviewers_fold (reviewers : List (List ReviewItem)) :
    ∀ (fb : PyDict (List String)) (k : String),
      k ∈ (reviewers.foldl applyReview fb).map Prod.fst ↔
        k ∈ fb.map Prod.fst ∨ ∃ items, items ∈ reviewers ∧ ∃ it, it ∈ items ∧
          (pyStrip it.title) = k ∧ (pyStrip it.title) ≠ "" ∧ (pyStrip it.comment) ≠ "" := by
  induction reviewers with
  | nil => intro fb k; simp
  | cons items rest ih =>
    intro fb k
    have step : (items :: rest).foldl applyReview fb =
      rest.foldl applyReview (applyReview fb items) := rfl
    rw [step, ih, mem_keys_applyReview]
    constructor
    · rintro ((h | ⟨w, hw, h1, h2, h3⟩) | ⟨is, his, hrest⟩)
      · exact Or.inl h
      · exact Or.inr ⟨items, List.mem_cons_self _ _, w, hw, h1, h2, h3⟩
      · exact Or.inr ⟨is, List.mem_cons_of_mem _ his, hrest⟩
    · rintro (h | ⟨is, his, w, hw, h1, h2, h3⟩)
      · exact Or.inl (Or.inl h)
      · rcases List.mem_cons.mp his with his | his
        · subst his; exact Or.inl (Or.inr ⟨w, hw, h1, h2, h3⟩)
        · exact Or.inr ⟨is, his, w, hw, h1, h2, h3⟩

theorem dlookup_reviewers_fold_of_no_match (reviewers : List (List ReviewItem)) :
    ∀ (fb : PyDict (List String)) (k : String),
      (∀ items, items ∈ reviewers → ∀ it, it ∈ items → (pyStrip it.title) ≠ k) →
      dlookup (reviewers.foldl applyReview fb) k = dlookup fb k := by
  induction reviewers with
  | nil => intro fb k _; rfl
  | cons items rest ih =>
    intro fb k h
    have step : (items :: rest).foldl applyReview fb =
      rest.foldl applyReview (applyReview fb items) := rfl
    rw [step, ih _ k (fun is his => h is (List.mem_cons_of_mem _ his))]
    exact dlookup_applyReview_of_no_match items fb k
      (h items (List.mem_cons_self _ _))

/-- C5 counterexample: with one surviving candidate titled `A` and a
reviewer whose reply carries title `B` and a non-empty comment, the
feedback map gains key `B` even though no surviving candidate has title
`B` — the key set is not exactly the surviving titles. -/
theorem C5_feedback_keys_counterexample :
    ("B" ∈ (ideate_review_refactor [[("title", "A")]] [] [[⟨"B", "good"⟩]]
      [] (fun _ => [])).feedback.map Prod.fst) ∧
    ((ideate_review_refactor [[("title", "A")]] [] [[⟨"B", "good"⟩]]
      [] (fun _ => [])).raw.map (fun s => (titleOrTitle s).getD "") = ["A"]) ∧
    "B" ≠ "A" := by decide

/-- C5 amended: on a run that reaches the review phase, the feedback map's
key set is the surviving candidates' truthy titles PLUS any stripped
reviewer-returned title that came with a non-empty comment (via
`setdefault`); every surviving titled candidate is a key, mapped to the
empty list when no reviewer item carries its title (in particular when
every reviewer fails and contributes nothing). -/
theorem C5_feedback_keys (rawCollected existing_concepts : List (PyDict String))
    (reviewers : List (List ReviewItem)) (ideation_agents : List String)
    (refiner : String → List (PyDict String)) (k : String)
    (hrun : ¬ (existingNormsOf existing_concepts ≠ [] ∧
      dedupeLoop (existingNormsOf existing_concepts) rawCollected = [])) :
    (k ∈ (ideate_review_refactor rawCollected existing_concepts reviewers
        ideation_agents refiner).feedback.map Prod.fst ↔
      ((∃ sol, sol ∈ (ideate_review_refactor rawCollected existing_concepts
          reviewers ideation_agents refiner).raw ∧ titleOrTitle sol = some k) ∨
       (∃ items, items ∈ reviewers ∧ ∃ it, it ∈ items ∧ (pyStrip it.title) = k ∧
         (pyStrip it.title) ≠ "" ∧ (pyStrip it.comment) ≠ ""))) ∧
    ((∃ sol, sol ∈ (ideate_review_refactor rawCollected existing_concepts
        reviewers ideation_agents refiner).raw ∧ titleOrTitle sol = some k) →
     (∀ items, items ∈ reviewers → ∀ it, it ∈ items → (pyStrip it.title) ≠ k) →
     dlookup (ideate_review_refactor rawCollected existing_concepts reviewers
       ideation_agents refiner).feedback k = some []) := by
  have hout : ideate_review_refactor rawCollected existing_concepts reviewers
      ideation_agents refiner =
      ⟨(dedupeLoop (existingNormsOf existing_concepts) rawCollected).map
         renameTitleKey,
       reviewers.foldl applyReview (initFeedback
         ((dedupeLoop (existingNormsOf existing_concepts) rawCollected).map
           renameTitleKey)),
       refineOutputs ((dedupeLoop (existingNormsOf existing_concepts)
         rawCollected).map renameTitleKey) ideation_agents refiner⟩ := by
    simp only [ideate_review_refactor]
    rw [if_neg hrun]
  rw [hout]
  constructor
  · rw [mem_keys_reviewers_fold, initFeedback, mem_keys_initFeedback_fold]
    simp only [List.map_nil, List.not_mem_nil, false_or]
  · intro hmem hno
    rw [dlookup_reviewers_fold_of_no_match reviewers _ k hno]
    have hkeys : k ∈ (initFeedback ((dedupeLoop (existingNormsOf
        existing_concepts) rawCollected).map renameTitleKey)).map Prod.fst := by
      rw [initFeedback, mem_keys_initFeedback_fold]
      exact Or.inr hmem
    rcases dlookup_some_of_mem_keys _ k hkeys with ⟨v, hv⟩
    have := dlookup_initFeedback_fold_empty
      ((dedupeLoop (existingNormsOf existing_concepts) rawCollected).map
        renameTitleKey) [] k (Or.inl rfl)
    rw [initFeedback] at hv
    rcases this with h | h
    · rw [hv] at h; cases h
    · rw [initFeedback]; exact h

/-- Witness for C5's amended theorem: Scenario C — the only reviewer
errors (contributes no items), yet the surviving title `X` is a key mapped
to the empty list. -/
theorem C5_feedback_keys_witness :
    dlookup (ideate_review_refactor [[("title", "X")]] [] [[]] []
      (fun _ => [])).feedback "X" = some [] := by
  have h := (C5_feedback_keys [[("title", "X")]] [] [[]] [] (fun _ => []) "X"
    (by decide)).2
  refine h ?_ ?_
  · refine ⟨[("title", "X")], ?_, by decide⟩
    have : (ideate_review_refactor [[("title", "X")]] [] [[]] []
        (fun _ => [])).raw = [[("title", "X")]] := by decide
    rw [this]
    exact List.mem_cons_self _ _
  · intro items his it hit
    have : items = [] := by
      rcases List.mem_cons.mp his with h1 | h1
      · exact h1
      · cases h1
    subst this
    cases hit

/-! ## Generic enrichment pass `_enrich_df_async` (src/app.py lines 662-700)

The agent replies are external: `newRows` holds, per dataframe row, the
`new_row` dict obtained from the agent's reply after the unwrapping of
lines 681-685 (`out.get("solution")`, first element of `out["solutions"]`,
or `out` itself). The write-back loop of lines 687-699 is embedded in
full. -/

/-- One dataframe cell / one JSON value as the write-back sees it:
Python `None` and pandas `NaN` collapse to `null`; `lst` is a list value
(stringified on write, src/app.py lines 690-691). -/
inductive Cell where
  | null
  | str (s : String)
  | num (n : Int)
  | lst (xs : List String)
deriving DecidableEq, Repr

/-- Lines 690-691: list values are joined with newlines before writing
(`str` of a string is itself); scalars pass through. -/
def stringifyCell : Cell → Cell
  | .lst xs => .str (String.intercalate "\n" xs)
  | c => c

/-- The overwrite guard of line 694:
`pd.isna(df.at[i, k]) or df.at[i, k] in (None, "None")`. -/
def cellMissing : Cell → Bool
  | .null => true
  | .str s => s = "None"
  | _ => false

/-- A dataframe: column names plus one dict per row (pandas keeps columns
even when no row exists, hence the separate `cols`). -/
structure DF where
  cols : List String
  rows : List (PyDict Cell)
deriving DecidableEq, Repr

/-- `df.at[i, k]` read. -/
def cellAt (df : DF) (i : Nat) (k : String) : Option Cell :=
  match df.rows.get? i with
  | some r => dlookup r k
  | none => none

/-- `df[k] = None` for a fresh column (line 693): every row gets a null
cell. -/
def dfAddCol (df : DF) (k : String) : DF :=
  ⟨df.cols ++ [k], df.rows.map (fun r => r ++ [(k, Cell.null)])⟩

/-- Replace element `n` of a list in place. -/
def listModify {α : Type} : List α → Nat → (α → α) → List α
  | [], _, _ => []
  | x :: xs, 0, f => f x :: xs
  | x :: xs, n + 1, f => x :: listModify xs n f

/-- `df.at[i, k] = v` write. -/
def dfSetCell (df : DF) (i : Nat) (k : String) (v : Cell) : DF :=
  ⟨df.cols, listModify df.rows i (fun r => dictSet r k v)⟩

/-- One iteration of the `for k, v in new_row.items()` loop
(lines 689-695): stringification is done by the caller; create the column
when absent, then write only when the current cell is missing. -/
def writeField (df : DF) (i : Nat) (k : String) (v : Cell) : DF :=
  let df1 := if k ∈ df.cols then df else dfAddCol df k
  match cellAt df1 i k with
  | some c => if cellMissing c then dfSetCell df1 i k v else df1
  | none => df1

/-- The whole items loop for one row. -/
def writeFields (i : Nat) : DF → List (String × Cell) → DF
  | df, [] => df
  | df, p :: rest => writeFields i (writeField df i p.fst (stringifyCell p.snd)) rest

/-- Lines 687-688: for the Self Critique Agent, rename the `suggestion`
key of the reply to `constructive_critique`
(`new_row["constructive_critique"] = new_row.pop("suggestion")`). -/
def critRename (agent : String) (nr : PyDict Cell) : PyDict Cell :=
  if agent = "Self Critique Agent" then
    match dlookup nr "suggestion" with
    | some v => dictSet (dictPop nr "suggestion") "constructive_critique" v
    | none => nr
  else nr

/-- Process the reply for row `i`. -/
def applyNewRow (df : DF) (i : Nat) (agent : String) (nr : PyDict Cell) : DF :=
  writeFields i df (critRename agent nr)

/-- `for i, out in enumerate(results)` (line 680). -/
def enrichRows (agent : String) : DF → Nat → List (PyDict Cell) → DF
  | df, _, [] => df
  | df, i, nr :: rest => enrichRows agent (applyNewRow df i agent nr) (i + 1) rest

/-- Lines 697-698: `if "solutions" in df.columns: df = df.drop(columns=["solutions"])`. -/
def dfDropCol (df : DF) (k : String) : DF :=
  if k ∈ df.cols then
    ⟨df.cols.filter (fun c => c ≠ k),
     df.rows.map (fun r => keyFilter (fun s => s ≠ k) r)⟩
  else df

/-- `_enrich_df_async` write-back: process every row's reply, then drop
the `solutions` helper column. -/
def enrich_df (agent : String) (df : DF) (newRows : List (PyDict Cell)) : DF :=
  dfDropCol (enrichRows agent df 0 newRows) "solutions"

theorem listModify_get?_ne {α : Type} (l : List α) (f : α → α) :
    ∀ (n m : Nat), m ≠ n → (listModify l n f).get? m = l.get? m := by
  induction l with
  | nil => intro n m _; rfl
  | cons x xs ih =>
    intro n m h
    cases n with
    | zero =>
      cases m with
      | zero => exact absurd rfl h
      | succ m => rfl
    | succ n =>
      cases m with
      | zero => rfl
      | succ m => exact ih n m (fun hh => h (by rw [hh]))

theorem listModify_get?_eq {α : Type} (l : List α) (f : α → α) :
    ∀ (n : Nat), (listModify l n f).get? n = (l.get? n).map f := by
  induction l with
  | nil => intro n; rfl
  | cons x xs ih =>
    intro n
    cases n with
    | zero => rfl
    | succ n => exact ih n

theorem dlookup_append_left {V : Type} (r : PyDict V) (l : PyDict V)
    (k : String) (v : V) (h : dlookup r k = some v) :
    dlookup (r ++ l) k = some v := by
  induction r with
  | nil => cases h
  | cons p rest ih =>
    by_cases hp : p.fst = k
    · simp only [dlookup, if_pos hp] at h
      simpa [dlookup, hp] using h
    · simp only [dlookup, if_neg hp] at h
      simpa [dlookup, hp] using ih h

theorem cellAt_dfAddCol (df : DF) (kc : String) (i : Nat) (k : String)
    (c : Cell) (h : cellAt df i k = some c) :
    cellAt (dfAddCol df kc) i k = some c := by
  rw [cellAt, dfAddCol] at *
  simp only [List.get?_map]
  cases hr : df.rows.get? i with
  | none => rw [hr] at h; cases h
  | some r =>
    rw [hr] at h
    simpa using dlookup_append_left r [(kc, Cell.null)] k c h

theorem cellAt_dfSetCell_ne (df : DF) (i' : Nat) (k' : String) (v : Cell)
    (i : Nat) (k : String) (h : i' ≠ i ∨ k' ≠ k) :
    cellAt (dfSetCell df i' k' v) i k = cellAt df i k := by
  rw [cellAt, cellAt, dfSetCell]
  by_cases hi : i' = i
  · subst hi
    have hk : k' ≠ k := h.resolve_left (fun hh => hh rfl)
    rw [listModify_get?_eq]
    cases hr : df.rows.get? i' with
    | none => rfl
    | some r =>
      simpa using dlookup_dictSet_ne r k' k v (fun hh => hk hh.symm)
  · rw [listModify_get?_ne df.rows _ i' i (fun hh => hi hh.symm)]

theorem writeField_preserve (df : DF) (i' : Nat) (k' : String) (v : Cell)
    (i : Nat) (k : String) (c : Cell)
    (hcol : k ∈ df.cols) (hcell : cellAt df i k = some c)
    (hmiss : cellMissing c = false) :
    k ∈ (writeField df i' k' v).cols ∧
      cellAt (writeField df i' k' v) i k = some c := by
  rw [writeField]
  by_cases hkc : k' ∈ df.cols
  · simp only [if_pos hkc]
    cases hc : cellAt df i' k' with
    | none => exact ⟨hcol, hcell⟩
    | some c' =>
      by_cases hm : cellMissing c'
      · simp only [if_pos hm]
        refine ⟨hcol, ?_⟩
        by_cases hii : i' = i ∧ k' = k
        · exfalso
          rw [hii.1, hii.2, hcell] at hc
          injection hc with hc
          rw [hc] at hmiss
          rw [hmiss] at hm
          cases hm
        · rw [cellAt_dfSetCell_ne df i' k' v i k (by tauto)]
          exact hcell
      · simp only [if_neg hm]
        exact ⟨hcol, hcell⟩
  · simp only [if_neg hkc]
    have hkk : k' ≠ k := fun hh => hkc (hh ▸ hcol)
    have hcol1 : k ∈ (dfAddCol df k').cols := by
      rw [dfAddCol]
      exact List.mem_append.mpr (Or.inl hcol)
    have hcell1 : cellAt (dfAddCol df k') i k = some c :=
      cellAt_dfAddCol df k' i k c hcell
    cases hc : cellAt (dfAddCol df k') i' k' with
    | none => exact ⟨hcol1, hcell1⟩
    | some c' =>
      by_cases hm : cellMissing c'
      · simp only [if_pos hm]
        refine ⟨hcol1, ?_⟩
        rw [cellAt_dfSetCell_ne _ i' k' v i k (Or.inr hkk)]
        exact hcell1
      · simp only [if_neg hm]
        exact ⟨hcol1, hcell1⟩

theorem mem_cols_writeField (df : DF) (i' : Nat) (k' : String) (v : Cell)
    (k : String) (h : k ∈ df.cols) : k ∈ (writeField df i' k' v).cols := by
  rw [writeField]
  by_cases hkc : k' ∈ df.cols
  · simp only [if_pos hkc]
    cases cellAt df i' k' with
    | none => exact h
    | some c' =>
      by_cases hm : cellMissing c' <;> simp [hm, dfSetCell, h]
  · simp only [if_neg hkc]
    have h1 : k ∈ (dfAddCol df k').cols := by
      rw [dfAddCol]; exact List.mem_append.mpr (Or.inl h)
    cases cellAt (dfAddCol df k') i' k' with
    | none => exact h1
    | some c' =>
      by_cases hm : cellMissing c' <;> simp [hm, dfSetCell, h1]

theorem writeField_key_mem (df : DF) (i' : Nat) (k' : String) (v : Cell) :
    k' ∈ (writeField df i' k' v).cols := by
  rw [writeField]
  by_cases hkc : k' ∈ df.cols
  · simp only [if_pos hkc]
    cases cellAt df i' k' with
    | none => exact hkc
    | some c' =>
      by_cases hm : cellMissing c' <;> simp [hm, dfSetCell, hkc]
  · simp only [if_neg hkc]
    have h1 : k' ∈ (dfAddCol df k').cols := by
      rw [dfAddCol]; exact List.mem_append.mpr (Or.inr (List.mem_singleton.mpr rfl))
    cases cellAt (dfAddCol df k') i' k' with
    | none => exact h1
    | some c' =>
      by_cases hm : cellMissing c' <;> simp [hm, dfSetCell, h1]

theorem writeFields_preserve (entries : List (String × Cell)) :
    ∀ (df : DF) (i' i : Nat) (k : String) (c : Cell),
      k ∈ df.cols → cellAt df i k = some c → cellMissing c = false →
      k ∈ (writeFields i' df entries).cols ∧
        cellAt (writeFields i' df entries) i k = some c := by
  induction entries with
  | nil => intro df i' i k c h1 h2 _; exact ⟨h1, h2⟩
  | cons p rest ih =>
    intro df i' i k c h1 h2 h3
    have hstep := writeField_preserve df i' p.fst (stringifyCell p.snd)
      i k c h1 h2 h3
    exact ih _ i' i k c hstep.1 hstep.2 h3

theorem mem_cols_writeFields (entries : List (String × Cell)) :
    ∀ (df : DF) (i' : Nat) (k : String), k ∈ df.cols →
      k ∈ (writeFields i' df entries).cols := by
  induction entries with
  | nil => intro df i' k h; exact h
  | cons p rest ih =>
    intro df i' k h
    exact ih _ i' k (mem_cols_writeField df i' p.fst _ k h)

theorem mem_cols_writeFields_entry (entries : List (String × Cell)) :
    ∀ (df : DF) (i' : Nat) (p : String × Cell), p ∈ entries →
      p.fst ∈ (writeFields i' df entries).cols := by
  induction entries with
  | nil => intro df i' p h; cases h
  | cons q rest ih =>
    intro df i' p h
    rcases List.mem_cons.mp h with h | h
    · subst h
      exact mem_cols_writeFields rest _ i' p.fst
        (writeField_key_mem df i' p.fst _)
    · exact ih _ i' p h

theorem enrichRows_preserve (agent : String) (newRows : List (PyDict Cell)) :
    ∀ (df : DF) (idx i : Nat) (k : String) (c : Cell),
      k ∈ df.cols → cellAt df i k = some c → cellMissing c = false →
      k ∈ (enrichRows agent df idx newRows).cols ∧
        cellAt (enrichRows agent df idx newRows) i k = some c := by
  induction newRows with
  | nil => intro df idx i k c h1 h2 _; exact ⟨h1, h2⟩
  | cons nr rest ih =>
    intro df idx i k c h1 h2 h3
    have hstep := writeFields_preserve (critRename agent nr) df idx i k c h1 h2 h3
    exact ih _ (idx + 1) i k c hstep.1 hstep.2 h3

theorem mem_cols_enrichRows (agent : String) (newRows : List (PyDict Cell)) :
    ∀ (df : DF) (idx : Nat) (k : String), k ∈ df.cols →
      k ∈ (enrichRows agent df idx newRows).cols := by
  induction newRows with
  | nil => intro df idx k h; exact h
  | cons nr rest ih =>
    intro df idx k h
    exact ih _ (idx + 1) k (mem_cols_writeFields (critRename agent nr) df idx k h)

theorem mem_cols_enrichRows_entry (agent : String) (newRows : List (PyDict Cell)) :
    ∀ (df : DF) (idx : Nat) (j : Nat) (nr : PyDict Cell),
      newRows.get? j = some nr → ∀ p : String × Cell, p ∈ critRename agent nr →
      p.fst ∈ (enrichRows agent df idx newRows).cols := by
  induction newRows with
  | nil => intro df idx j nr h; cases h
  | cons nr0 rest ih =>
    intro df idx j nr h p hp
    cases j with
    | zero =>
      injection h with h
      rw [← h] at hp
      exact mem_cols_enrichRows agent rest _ (idx + 1) p.fst
        (mem_cols_writeFields_entry (critRename agent nr0) df idx p hp)
    | succ j => exact ih _ (idx + 1) j nr h p hp

theorem cellAt_dfDropCol_ne (df : DF) (kd : String) (i : Nat) (k : String)
    (h : k ≠ kd) : cellAt (dfDropCol df kd) i k = cellAt df i k := by
  rw [dfDropCol]
  by_cases hm : kd ∈ df.cols
  · simp only [if_pos hm, cellAt, List.get?_map]
    cases hr : df.rows.get? i with
    | none => rfl
    | some r =>
      have hkf : dlookup (keyFilter (fun s => decide (s ≠ kd)) r) k =
          dlookup r k := by
        rw [dlookup_keyFilter]
        simp [h]
      simpa using hkf
  · rw [if_neg hm]

theorem mem_cols_dfDropCol (df : DF) (kd : String) (k : String)
    (h : k ∈ df.cols) (hne : k ≠ kd) : k ∈ (dfDropCol df kd).cols := by
  rw [dfDropCol]
  by_cases hm : kd ∈ df.cols
  · simp only [if_pos hm]
    simp only [List.mem_filter]
    exact ⟨h, by simpa using hne⟩
  · rw [if_neg hm]; exact h

/-- C8 counterexample: a row whose `solutions` field holds the non-null,
non-"None" value `"keep"` loses that field entirely during the pass (the
`solutions` helper column is dropped at the end), so the field is not
byte-identical afterwards. -/
theorem C8_enrich_counterexample :
    cellAt (enrich_df "Generic Agent"
      ⟨["solutions"], [[("solutions", Cell.str "keep")]]⟩ [[]]) 0 "solutions"
      = none ∧
    cellAt (⟨["solutions"], [[("solutions", Cell.str "keep")]]⟩ : DF) 0
      "solutions" = some (Cell.str "keep") ∧
    cellMissing (Cell.str "keep") = false := by decide

/-- C8 amended: for every field other than the `solutions` helper column
(which is unconditionally dropped at the end of the pass), a cell holding
a non-null, non-"None" value before the pass holds the identical value
after it — the guard writes only into missing cells — and every key of an
agent reply (other than `solutions`) ends up as a column of the resulting
dataframe, freshly created when absent. -/
theorem C8_enrich_preserves (agent : String) (df : DF)
    (newRows : List (PyDict Cell)) (i : Nat) (k : String) (c : Cell)
    (hcol : k ∈ df.cols) (hcell : cellAt df i k = some c)
    (hmiss : cellMissing c = false) (hk : k ≠ "solutions") :
    cellAt (enrich_df agent df newRows) i k = some c ∧
    (∀ (j : Nat) (nr : PyDict Cell), newRows.get? j = some nr →
      ∀ p : String × Cell, p ∈ critRename agent nr → p.fst ≠ "solutions" →
      p.fst ∈ (enrich_df agent df newRows).cols) := by
  constructor
  · rw [enrich_df, cellAt_dfDropCol_ne _ _ i k hk]
    exact (enrichRows_preserve agent newRows df 0 i k c hcol hcell hmiss).2
  · intro j nr hj p hp hps
    rw [enrich_df]
    exact mem_cols_dfDropCol _ "solutions" p.fst
      (mem_cols_enrichRows_entry agent newRows df 0 j nr hj p hp) hps

/-- Witness for C8: a concrete dataframe whose `title` cell is already
populated keeps it byte-identical while the missing `trl` cell is filled
and the new `extra` key becomes a column. -/
theorem C8_enrich_preserves_witness :
    cellAt (enrich_df "Generic Agent"
        ⟨["title", "trl"], [[("title", Cell.str "T"), ("trl", Cell.null)]]⟩
        [[("title", Cell.str "evil"), ("trl", Cell.str "5"),
          ("extra", Cell.str "e")]]) 0 "title" = some (Cell.str "T") ∧
    "extra" ∈ (enrich_df "Generic Agent"
        ⟨["title", "trl"], [[("title", Cell.str "T"), ("trl", Cell.null)]]⟩
        [[("title", Cell.str "evil"), ("trl", Cell.str "5"),
          ("extra", Cell.str "e")]]).cols := by
  have h := C8_enrich_preserves "Generic Agent"
    ⟨["title", "trl"], [[("title", Cell.str "T"), ("trl", Cell.null)]]⟩
    [[("title", Cell.str "evil"), ("trl", Cell.str "5"),
      ("extra", Cell.str "e")]] 0 "title" (Cell.str "T")
    (by decide) (by decide) (by decide) (by decide)
  refine ⟨h.1, ?_⟩
  exact h.2 0 _ rfl ("extra", Cell.str "e") (by decide) (by decide)

/-! ## `_flatten_solution` (src/app.py lines 1157-1239) -/

/-- Python `str.startswith`. -/
def pyStartsWith (s pre : String) : Bool :=
  List.isPrefixOf pre.toList s.toList

/-- The `_get(*keys)` helper (lines 1160-1163): the first key present in
the input whose value is not `None`, `"None"` or `""`; falls through to
the next key otherwise, and returns Python `None` (here `Option.none`)
when no key qualifies. -/
def flattenGet (sol : PyDict Cell) : List String → Option Cell
  | [] => none
  | k :: rest =>
    match dlookup sol k with
    | some v =>
      if v = Cell.null ∨ v = Cell.str "None" ∨ v = Cell.str "" then
        flattenGet sol rest
      else some v
    | none => flattenGet sol rest

/-- `row[k] = <value>`: a Python `None` result is stored as a null cell. -/
def rowAssign (row : PyDict Cell) (k : String) (o : Option Cell) :
    PyDict Cell :=
  dictSet row k (o.getD Cell.null)

/-- The initial `row` literal (lines 1165-1180). -/
def flattenBase (agent : String) (sol : PyDict Cell) : PyDict Cell :=
  [("agent", Cell.str agent),
   ("title", (flattenGet sol ["title", "title", "Name", "name"]).getD Cell.null),
   ("description", Cell.null),
   ("novelty_reasoning", Cell.null),
   ("feasibility_reasoning", Cell.null),
   ("cost_estimate", Cell.null),
   ("trl", Cell.null),
   ("trl_reasoning", Cell.null),
   ("trl_citations", Cell.null),
   ("validated_trl", Cell.null),
   ("validated_trl_reasoning", Cell.null),
   ("validated_trl_citations", Cell.null),
   ("components", Cell.null),
   ("constructive_critique", Cell.null)]

/-- The per-agent `if/elif` ladder (lines 1182-1233), in source order. -/
def flattenBranch (agent : String) (sol : PyDict Cell) (row : PyDict Cell) :
    PyDict Cell :=
  if pyStartsWith agent "TRIZ" then
    rowAssign (rowAssign (rowAssign (rowAssign row
      "description" (flattenGet sol ["Architecture", "description"]))
      "novelty_reasoning" (flattenGet sol ["advantages"]))
      "cost_estimate" (flattenGet sol ["CostImpact"]))
      "trl" (flattenGet sol ["TRL"])
  else if agent = "Scientific Research Agent 1" then
    rowAssign (rowAssign row
      "description" (flattenGet sol ["description", "Description"]))
      "novelty_reasoning"
      (flattenGet sol ["novelty_reasoning", "Novelty_reasoning"])
  else if agent = "Scientific Research Agent 2" then
    rowAssign (rowAssign (rowAssign (rowAssign (rowAssign (rowAssign
      (rowAssign row
      "description" (flattenGet sol ["description"]))
      "novelty_reasoning" (flattenGet sol ["novelty_reasoning"]))
      "feasibility_reasoning"
      (flattenGet sol ["feasibility_reasoning", "Feasibility_reasoning"]))
      "cost_estimate" (flattenGet sol ["cost_estimate", "Cost_estimate"]))
      "trl" (flattenGet sol ["trl", "TRL"]))
      "trl_reasoning" (flattenGet sol ["trl_reasoning", "Trl_reasoning"]))
      "trl_citations" (flattenGet sol ["trl_citations"])
  else if pyStartsWith agent "Black Hat" then row
  else if pyStartsWith agent "Self Critique" then
    rowAssign row "constructive_critique" (flattenGet sol ["comment", "Comment"])
  else if agent = "Product Ideation Agent" then
    rowAssign (rowAssign (rowAssign (rowAssign row
      "description" (flattenGet sol ["description"]))
      "novelty_reasoning" (flattenGet sol ["novelty_reasoning"]))
      "components" (flattenGet sol ["components"]))
      "references" (flattenGet sol ["references"])
  else if agent = "Cross-Industry Translation Agent" then
    match flattenGet sol ["challenges"] with
    | some (Cell.lst ch) =>
      dictSet (rowAssign (rowAssign (rowAssign (rowAssign row
        "description" (flattenGet sol ["adaptation"]))
        "novelty_reasoning" (flattenGet sol ["source_industry"]))
        "feasibility_reasoning" (flattenGet sol ["original_solution"]))
        "references" (flattenGet sol ["source_links"]))
        "constructive_critique" (Cell.str (String.intercalate "\n" ch))
    | _ =>
      rowAssign (rowAssign (rowAssign (rowAssign row
        "description" (flattenGet sol ["adaptation"]))
        "novelty_reasoning" (flattenGet sol ["source_industry"]))
        "feasibility_reasoning" (flattenGet sol ["original_solution"]))
        "references" (flattenGet sol ["source_links"])
  else if agent = "Integrated Solutions Agent" then
    rowAssign (rowAssign (rowAssign row
      "description" (flattenGet sol ["integration_notes"]))
      "novelty_reasoning" (flattenGet sol ["function"]))
      "references" (flattenGet sol ["sources"])
  else row

/-- `_flatten_solution` (lines 1157-1239): build the base row, apply the
agent branch, then stringify list values so PyArrow accepts them
(lines 1235-1237). -/
def _flatten_solution (agent : String) (sol : PyDict Cell) : PyDict Cell :=
  (flattenBranch agent sol (flattenBase agent sol)).map
    (fun p => (p.fst, stringifyCell p.snd))

theorem dlookup_map_stringify (row : PyDict Cell) (k : String) :
    dlookup (row.map (fun p => (p.fst, stringifyCell p.snd))) k =
      (dlookup row k).map stringifyCell := by
  induction row with
  | nil => rfl
  | cons p rest ih =>
    by_cases hp : p.fst = k <;> simp [dlookup, hp, ih]

theorem dlookup_flattenBranch_title (agent : String) (sol row : PyDict Cell) :
    dlookup (flattenBranch agent sol row) "title" = dlookup row "title" := by
  have hne : ∀ (r : PyDict Cell) (k : String) (o : Option Cell), k ≠ "title" →
      dlookup (rowAssign r k o) "title" = dlookup r "title" :=
    fun r k o h => dlookup_dictSet_ne r k "title" _ (fun hh => h hh.symm)
  rw [flattenBranch]
  split_ifs with h1 h2 h3 h4 h5 h6 h7 h8
  · rw [hne _ _ _ (by decide), hne _ _ _ (by decide), hne _ _ _ (by decide),
      hne _ _ _ (by decide)]
  · rw [hne _ _ _ (by decide), hne _ _ _ (by decide)]
  · rw [hne _ _ _ (by decide), hne _ _ _ (by decide), hne _ _ _ (by decide),
      hne _ _ _ (by decide), hne _ _ _ (by decide), hne _ _ _ (by decide),
      hne _ _ _ (by decide)]
  · rfl
  · rw [hne _ _ _ (by decide)]
  · rw [hne _ _ _ (by decide), hne _ _ _ (by decide), hne _ _ _ (by decide),
      hne _ _ _ (by decide)]
  · cases hch : flattenGet sol ["challenges"] with
    | none =>
      simp only [hch]
      rw [hne _ _ _ (by decide), hne _ _ _ (by decide), hne _ _ _ (by decide),
        hne _ _ _ (by decide)]
    | some v =>
      cases v with
      | lst ch =>
        simp only [hch]
        rw [dlookup_dictSet_ne _ _ _ _ (by decide)]
        rw [hne _ _ _ (by decide), hne _ _ _ (by decide),
          hne _ _ _ (by decide), hne _ _ _ (by decide)]
      | null =>
        simp only [hch]
        rw [hne _ _ _ (by decide), hne _ _ _ (by decide),
          hne _ _ _ (by decide), hne _ _ _ (by decide)]
      | str s =>
        simp only [hch]
        rw [hne _ _ _ (by decide), hne _ _ _ (by decide),
          hne _ _ _ (by decide), hne _ _ _ (by decide)]
      | num n =>
        simp only [hch]
        rw [hne _ _ _ (by decide), hne _ _ _ (by decide),
          hne _ _ _ (by decide), hne _ _ _ (by decide)]
  · rw [hne _ _ _ (by decide), hne _ _ _ (by decide), hne _ _ _ (by decide)]
  · rfl

theorem dlookup_flattenBase_title (agent : String) (sol : PyDict Cell) :
    dlookup (flattenBase agent sol) "title" =
      some ((flattenGet sol ["title", "title", "Name", "name"]).getD
        Cell.null) := by
  simp [flattenBase, dlookup]

theorem flattenGet_usable (sol : PyDict Cell) :
    ∀ (keys : List String) (v : Cell), flattenGet sol keys = some v →
      ¬(v = Cell.null ∨ v = Cell.str "None" ∨ v = Cell.str "") := by
  intro keys
  induction keys with
  | nil => intro v h; cases h
  | cons k rest ih =>
    intro v h
    rw [flattenGet] at h
    cases hd : dlookup sol k with
    | none => rw [hd] at h; exact ih v h
    | some w =>
      rw [hd] at h
      have h' : (if w = Cell.null ∨ w = Cell.str "None" ∨ w = Cell.str ""
          then flattenGet sol rest else some w) = some v := h
      by_cases hw : w = Cell.null ∨ w = Cell.str "None" ∨ w = Cell.str ""
      · rw [if_pos hw] at h'
        exact ih v h'
      · rw [if_neg hw] at h'
        injection h' with h'
        rw [← h']
        exact hw

/-- C9 counterexample: an agent-output object with no usable title (here
the empty object) yields a record whose `title` field is present but
holds Python `None` — the flattener does not guarantee a non-empty
title. -/
theorem C9_title_counterexample :
    dlookup (_flatten_solution "Scientific Research Agent 2" []) "title" =
      some Cell.null := by decide

/-- C9 amended: the record produced by `_flatten_solution` always has a
`title` key, whose value is the first of the input's
`title`/`Name`/`name` values that is not `None`, `"None"` or `""`
(stringified when a list) — hence non-empty whenever the input offers a
usable title — and Python `None` when the input offers none. -/
theorem C9_title_field (agent : String) (sol : PyDict Cell) :
    dlookup (_flatten_solution agent sol) "title" =
      some (stringifyCell
        ((flattenGet sol ["title", "title", "Name", "name"]).getD
          Cell.null)) ∧
    (∀ v, flattenGet sol ["title", "title", "Name", "name"] = some v →
      v ≠ Cell.null ∧ v ≠ Cell.str "None" ∧ v ≠ Cell.str "") := by
  constructor
  · rw [_flatten_solution, dlookup_map_stringify, dlookup_flattenBranch_title,
      dlookup_flattenBase_title]
    rfl
  · intro v hv
    have h := flattenGet_usable sol ["title", "title", "Name", "name"] v hv
    push_neg at h
    exact h

/-- Witness for C9's amended theorem: a TRIZ record whose `Name` value is
usable ends up with that very title. -/
theorem C9_title_field_witness :
    dlookup (_flatten_solution "TRIZ Ideation Agent"
      [("Name", Cell.str "Widget")]) "title" = some (Cell.str "Widget") ∧
    Cell.str "Widget" ≠ Cell.null := by
  have h := C9_title_field "TRIZ Ideation Agent" [("Name", Cell.str "Widget")]
  refine ⟨?_, ?_⟩
  · rw [h.1]
    decide
  · exact (h.2 (Cell.str "Widget") (by decide)).1

end IdeationEngine
